import Mathlib

/-
Verification of the bounded integer stack in src/Day03/Stack/src/main.rs.

The program keeps a `Vec<i32>` of elements together with a `head : usize`
counting occupied slots and a fixed `capacity : usize`.  We embed the state
as a list of integers plus a natural-number head (usize is modelled by Nat,
so `0 <= head` is intrinsic), and each Rust function as a Lean function.
Rust slice indexing `numbers[i]` panics when out of bounds; we model a
panicking read as `none`, so an operation that can panic returns `Option`.
Console messages that matter to the design ("Stack is full", "All elements
have been removed", "The stack is empty") are reflected in the return types:
`push` returns the number of StackFull messages printed, `pop` returns a
`PopOut`, `top_of_the_stack` returns the printed value paired with a flag
that is true exactly when the StackEmpty message was printed, and `display`
returns the printed lines as a `DisplayOut`.
-/

namespace BoundedStack

/-- State of the stack: the backing vector `numbers` and the occupied-slot
count `head`, exactly the two mutable locals of `main`. -/
structure StackState where
  numbers : List Int
  head : Nat
  deriving DecidableEq, Repr

/-- Result of `pop`: the StackEmpty message, a removed element's value, or
the silent branch taken when `Vec::pop` returns `None` (no message). -/
inductive PopOut where
  | empty : PopOut
  | removed : Int → PopOut
  | silent : PopOut
  deriving DecidableEq, Repr

/-- Output of `display`: the StackEmpty message, or the list of element
values printed one per line, in print order. -/
inductive DisplayOut where
  | empty : DisplayOut
  | elems : List Int → DisplayOut
  deriving DecidableEq, Repr

/-- The freshly constructed stack of `main`: `Vec::with_capacity(capacity)`
is empty, and `head` starts at 0. -/
def initialStack : StackState := ⟨[], 0⟩

/-- The `push` function: for each parsed value in order, if `head == capacity`
print "Stack is full" and return immediately (discarding the rest of the
batch), otherwise append the value and increment `head`.  The second
component counts the StackFull messages printed (0 or 1). -/
def push (capacity : Nat) : List Int → StackState → StackState × Nat
  | [], s => (s, 0)
  | v :: rest, s =>
    if s.head = capacity then (s, 1)
    else push capacity rest ⟨s.numbers ++ [v], s.head + 1⟩

/-- The `pop` function: on `head == 0` print the StackEmpty message and leave
the state alone; otherwise decrement `head` and call `Vec::pop` (remove and
return the last element), printing the removed value when it exists. -/
def pop (s : StackState) : StackState × PopOut :=
  if s.head = 0 then (s, PopOut.empty)
  else
    match s.numbers.getLast? with
    | some v => (⟨s.numbers.dropLast, s.head - 1⟩, PopOut.removed v)
    | none => (⟨s.numbers.dropLast, s.head - 1⟩, PopOut.silent)

/-- The `top_of_the_stack` function: on `head == 0` print "The stack is
empty" and return the sentinel 0 (flag true); otherwise return
`numbers[head - 1]` (flag false).  `none` models an out-of-bounds panic. -/
def top_of_the_stack (numbers : List Int) (head : Nat) : Option (Int × Bool) :=
  if head = 0 then some (0, true)
  else (numbers[head - 1]?).map (fun v => (v, false))

/-- The loop of `display`: `for i in (0..head).rev() { println numbers[i] }`,
returning the printed values in print order; `none` models an out-of-bounds
panic at the first offending index. -/
def displayLoop (numbers : List Int) : Nat → Option (List Int)
  | 0 => some []
  | n + 1 =>
    match numbers[n]? with
    | none => none
    | some v => (displayLoop numbers n).map (fun rest => v :: rest)

/-- The `display` function: on `head == 0` print "The stack is empty",
otherwise print the elements from index `head - 1` down to 0. -/
def display (numbers : List Int) (head : Nat) : Option DisplayOut :=
  if head = 0 then some DisplayOut.empty
  else (displayLoop numbers head).map DisplayOut.elems

/-- State-passing wrapper for `top_of_the_stack`: the Rust function borrows
the vector immutably and takes `head` by value, so the caller's state after
the call is the input state unchanged. -/
def topOp (s : StackState) : Option (Int × Bool) × StackState :=
  (top_of_the_stack s.numbers s.head, s)

/-- State-passing wrapper for `display`: the Rust function borrows the
vector immutably and takes `head` by value, so the caller's state after the
call is the input state unchanged. -/
def displayOp (s : StackState) : Option DisplayOut × StackState :=
  (display s.numbers s.head, s)

/-- The data-model invariant: `head` counts the occupied slots
(`head == length(elements)`) and never exceeds the capacity.  `0 <= head`
holds intrinsically since `head : Nat` models a `usize`. -/
def Inv (capacity : Nat) (s : StackState) : Prop :=
  s.head = s.numbers.length ∧ s.head ≤ capacity

instance (capacity : Nat) (s : StackState) : Decidable (Inv capacity s) :=
  inferInstanceAs (Decidable (_ ∧ _))

/-- Helper: a push whose batch overflows the remaining room fills the stack
exactly, keeps the first `capacity - head` values of the batch, and prints
the StackFull message exactly once. -/
theorem push_full (capacity : Nat) (values : List Int) :
    ∀ s : StackState, s.head ≤ capacity → capacity - s.head < values.length →
      push capacity values s =
        (⟨s.numbers ++ values.take (capacity - s.head), capacity⟩, 1) := by
  induction values with
  | nil => intro s _ h2; simp at h2
  | cons v rest ih =>
    intro s h1 h2
    by_cases hc : s.head = capacity
    · obtain ⟨ns, nh⟩ := s
      simp only at hc
      simp [push, hc, Nat.sub_self]
    · have hlt : s.head < capacity := lt_of_le_of_ne h1 hc
      rw [push, if_neg hc,
        ih ⟨s.numbers ++ [v], s.head + 1⟩ (show s.head + 1 ≤ capacity by omega)
          (show capacity - (s.head + 1) < rest.length by simp at h2; omega)]
      obtain ⟨k, hk⟩ : ∃ k, capacity - s.head = k + 1 :=
        ⟨capacity - s.head - 1, by omega⟩
      have hk' : capacity - (s.head + 1) = k := by omega
      simp [hk, hk', List.take_succ_cons]

/-- Helper: pushing preserves the data-model invariant. -/
theorem push_inv (capacity : Nat) (values : List Int) :
    ∀ s : StackState, Inv capacity s → Inv capacity (push capacity values s).1 := by
  induction values with
  | nil => intro s hs; simpa [push] using hs
  | cons v rest ih =>
    intro s hs
    by_cases hc : s.head = capacity
    · simpa [push, hc] using hs
    · rw [push, if_neg hc]
      have hle : s.head ≤ capacity := hs.2
      exact ih ⟨s.numbers ++ [v], s.head + 1⟩
        ⟨show s.head + 1 = (s.numbers ++ [v]).length by simp [hs.1],
         show s.head + 1 ≤ capacity by omega⟩

/-- Helper: on a state satisfying `head == length(elements)` with a positive
head, `pop` removes exactly the last element, returns its value, and
decrements `head` by one. -/
theorem pop_pos (s : StackState) (hinv : s.head = s.numbers.length)
    (h : 0 < s.head) :
    ∃ v, pop s = (⟨s.numbers.dropLast, s.head - 1⟩, PopOut.removed v) ∧
      s.numbers.dropLast ++ [v] = s.numbers := by
  have hne : s.numbers ≠ [] := by
    intro he
    rw [he] at hinv
    simp at hinv
    omega
  refine ⟨s.numbers.getLast hne, ?_, List.dropLast_append_getLast hne⟩
  rw [pop, if_neg (by omega), List.getLast?_eq_getLast _ hne]

/-- Helper: the display loop over a full prefix in bounds prints the prefix
reversed and never hits an out-of-bounds index. -/
theorem displayLoop_take (numbers : List Int) :
    ∀ n : Nat, n ≤ numbers.length →
      displayLoop numbers n = some ((numbers.take n).reverse) := by
  intro n
  induction n with
  | zero => intro _; simp [displayLoop]
  | succ m ih =>
    intro hm
    have hlt : m < numbers.length := by omega
    have h1 : numbers[m]? = some numbers[m] := List.getElem?_eq_getElem hlt
    rw [displayLoop, h1, ih (by omega)]
    show some (numbers[m] :: (numbers.take m).reverse) =
      some ((numbers.take (m + 1)).reverse)
    rw [List.take_succ, h1]
    simp only [Option.toList_some, List.reverse_append, List.reverse_singleton,
      List.singleton_append]

/-- Claim C1: pushing a batch of n > c values into the freshly constructed
stack inserts exactly the first c values in order, leaves head == c, prints
the StackFull message exactly once, and discards the remaining n - c values
(the resulting vector is the batch's c-prefix). -/
theorem push_beyond_capacity (capacity : Nat) (values : List Int)
    (h : capacity < values.length) :
    push capacity values initialStack =
      (⟨values.take capacity, capacity⟩, 1) := by
  have hfull := push_full capacity values initialStack (Nat.zero_le _)
    (show capacity - 0 < values.length by omega)
  simpa [initialStack] using hfull

/-- Witness for C1: capacity 2, batch [5, 6, 7]. -/
theorem push_beyond_capacity_witness :
    (2 : Nat) < ([(5 : Int), 6, 7]).length ∧
      push 2 [(5 : Int), 6, 7] initialStack = (⟨[(5 : Int), 6], 2⟩, 1) :=
  ⟨by decide, push_beyond_capacity 2 [5, 6, 7] (by decide)⟩

/-- Claim C2: the invariant 0 <= head <= capacity and head == length(elements)
holds after construction and is preserved by push, pop, top and display
(0 <= head is intrinsic to head : Nat, which models usize). -/
theorem inv_preserved (capacity : Nat) :
    Inv capacity initialStack ∧
    (∀ (values : List Int) (s : StackState), Inv capacity s →
      Inv capacity (push capacity values s).1) ∧
    (∀ s : StackState, Inv capacity s → Inv capacity (pop s).1) ∧
    (∀ s : StackState, Inv capacity s → Inv capacity (topOp s).2) ∧
    (∀ s : StackState, Inv capacity s → Inv capacity (displayOp s).2) := by
  refine ⟨⟨rfl, Nat.zero_le _⟩, fun values s hs => push_inv capacity values s hs,
    ?_, fun s hs => hs, fun s hs => hs⟩
  intro s hs
  by_cases h0 : s.head = 0
  · simpa [pop, h0] using hs
  · obtain ⟨v, hv, _⟩ := pop_pos s hs.1 (Nat.pos_of_ne_zero h0)
    rw [hv]
    exact ⟨show s.head - 1 = s.numbers.dropLast.length by
        rw [List.length_dropLast, hs.1],
      show s.head - 1 ≤ capacity from le_trans (Nat.sub_le _ _) hs.2⟩

/-- Witness for C2: capacity 2, a push and a pop starting from a state
satisfying the invariant. -/
theorem inv_preserved_witness :
    Inv 2 (push 2 [(2 : Int), 3] ⟨[(1 : Int)], 1⟩).1 ∧
      Inv 2 (pop ⟨[(1 : Int)], 1⟩).1 :=
  ⟨(inv_preserved 2).2.1 [2, 3] ⟨[1], 1⟩ (by decide),
   (inv_preserved 2).2.2.1 ⟨[1], 1⟩ (by decide)⟩

/-- Claim C3: on a state with head > 0 (satisfying the data-model invariant
head == length(elements)), pop decrements head by exactly one, removes
exactly the last element of the vector (the logical top, LIFO), and returns
that element's value. -/
theorem pop_lifo (s : StackState) (hinv : s.head = s.numbers.length)
    (h : 0 < s.head) :
    ∃ v, pop s = (⟨s.numbers.dropLast, s.head - 1⟩, PopOut.removed v) ∧
      s.numbers.dropLast ++ [v] = s.numbers :=
  pop_pos s hinv h

/-- Witness for C3: popping the stack [1, 2, 3] with head 3. -/
theorem pop_lifo_witness :
    (0 : Nat) < (3 : Nat) ∧ ∃ v,
      pop ⟨[(1 : Int), 2, 3], 3⟩ = (⟨[(1 : Int), 2], 2⟩, PopOut.removed v) ∧
        [(1 : Int), 2] ++ [v] = [(1 : Int), 2, 3] :=
  ⟨by decide, pop_lifo ⟨[1, 2, 3], 3⟩ rfl (by decide)⟩

/-- Claim C4: on head == 0, top prints the StackEmpty message and returns
the sentinel 0; on head > 0 it returns numbers[head - 1]; in both cases the
caller's state (head, elements, capacity) is unchanged. -/
theorem top_spec (s : StackState) (hinv : s.head = s.numbers.length) :
    (s.head = 0 → topOp s = (some (0, true), s)) ∧
    (0 < s.head → ∃ v, s.numbers[s.head - 1]? = some v ∧
      topOp s = (some (v, false), s)) := by
  constructor
  · intro h0
    simp [topOp, top_of_the_stack, h0]
  · intro hpos
    have hlt : s.head - 1 < s.numbers.length := by omega
    exact ⟨s.numbers[s.head - 1], List.getElem?_eq_getElem hlt,
      by simp [topOp, top_of_the_stack, Nat.pos_iff_ne_zero.mp hpos,
        List.getElem?_eq_getElem hlt]⟩

/-- Witness for C4: top of the stack [7] with head 1. -/
theorem top_spec_witness :
    (0 : Nat) < (1 : Nat) ∧ ∃ v, [(7 : Int)][0]? = some v ∧
      topOp ⟨[(7 : Int)], 1⟩ = (some (v, false), ⟨[(7 : Int)], 1⟩) :=
  ⟨by decide, (top_spec ⟨[7], 1⟩ rfl).2 (by decide)⟩

/-- Claim C5: on head == 0, pop prints the StackEmpty message and leaves the
whole state unchanged: head stays 0 and the vector is not modified. -/
theorem pop_empty_noop (s : StackState) (h : s.head = 0) :
    pop s = (s, PopOut.empty) := by
  simp [pop, h]

/-- Witness for C5: popping the empty stack. -/
theorem pop_empty_noop_witness :
    pop ⟨([] : List Int), 0⟩ = (⟨([] : List Int), 0⟩, PopOut.empty) :=
  pop_empty_noop ⟨[], 0⟩ rfl

/-- Claim C6: on a state satisfying the invariant, display with head > 0
prints exactly the head occupied elements in top-to-bottom order
(numbers[head - 1] down to numbers[0], i.e. the vector reversed) and leaves
the state unchanged; with head == 0 it prints the StackEmpty message. -/
theorem display_spec (s : StackState) (hinv : s.head = s.numbers.length) :
    (s.head = 0 → displayOp s = (some DisplayOut.empty, s)) ∧
    (0 < s.head →
      displayOp s = (some (DisplayOut.elems s.numbers.reverse), s)) := by
  constructor
  · intro h0
    simp [displayOp, display, h0]
  · intro hpos
    have h1 : displayLoop s.numbers s.head =
        some ((s.numbers.take s.head).reverse) :=
      displayLoop_take s.numbers s.head (le_of_eq hinv)
    have h2 : s.numbers.take s.head = s.numbers := by
      rw [hinv]
      exact List.take_length _
    rw [h2] at h1
    simp [displayOp, display, Nat.pos_iff_ne_zero.mp hpos, h1]

/-- Witness for C6: displaying the stack [1, 2] with head 2 prints 2 then 1. -/
theorem display_spec_witness :
    (0 : Nat) < (2 : Nat) ∧
      displayOp ⟨[(1 : Int), 2], 2⟩ =
        (some (DisplayOut.elems [(2 : Int), 1]), ⟨[(1 : Int), 2], 2⟩) :=
  ⟨by decide, (display_spec ⟨[1, 2], 2⟩ rfl).2 (by decide)⟩

/-- Claim C7: from any state with head < capacity, pushing the single value
v and immediately popping returns v and restores head and the vector to
their values before the push. -/
theorem push_pop_roundtrip (capacity : Nat) (s : StackState) (v : Int)
    (h : s.head < capacity) :
    pop (push capacity [v] s).1 = (s, PopOut.removed v) := by
  obtain ⟨ns, nh⟩ := s
  have hc : nh ≠ capacity := Nat.ne_of_lt h
  simp [push, hc, pop, List.getLast?_concat, List.dropLast_concat]

/-- Witness for C7: pushing 9 onto the stack [1] (head 1, capacity 3) and
popping returns 9 and restores the state. -/
theorem push_pop_roundtrip_witness :
    (1 : Nat) < (3 : Nat) ∧
      pop (push 3 [(9 : Int)] ⟨[(1 : Int)], 1⟩).1 =
        (⟨[(1 : Int)], 1⟩, PopOut.removed 9) :=
  ⟨by decide, push_pop_roundtrip 3 ⟨[1], 1⟩ 9 (by decide)⟩

/-- Claim C8 (counterexample): with capacity 0, pushing the empty batch
prints the StackFull message zero times, not once — the loop body never
runs, so no signal is emitted for an empty batch. -/
theorem cap0_empty_batch_no_stackfull :
    (push 0 [] initialStack).2 = 0 ∧ ¬ (push 0 [] initialStack).2 = 1 := by
  decide

/-- Claim C8 (amended): with capacity 0, any nonempty push batch prints the
StackFull message exactly once and retains zero elements (head stays 0 and
the vector stays empty), and top on that stack prints the StackEmpty
message and returns the sentinel 0. -/
theorem cap0_push_nonempty (values : List Int) (h : values ≠ []) :
    push 0 values initialStack = (initialStack, 1) ∧
    top_of_the_stack initialStack.numbers initialStack.head =
      some (0, true) := by
  constructor
  · obtain ⟨v, rest, rfl⟩ := List.exists_cons_of_ne_nil h
    simp [push, initialStack]
  · simp [top_of_the_stack, initialStack]

/-- Witness for C8 (amended): pushing the batch [5] with capacity 0. -/
theorem cap0_push_nonempty_witness :
    push 0 [(5 : Int)] initialStack = (initialStack, 1) ∧
      top_of_the_stack initialStack.numbers initialStack.head =
        some (0, true) :=
  cap0_push_nonempty [5] (by decide)

/-- Claim C9: calling display twice in succession with no intervening
mutation yields identical output both times and leaves the state exactly as
it was: display is a pure read of the state. -/
theorem display_idempotent (s : StackState) :
    (displayOp ((displayOp s).2)).1 = (displayOp s).1 ∧
      (displayOp ((displayOp s).2)).2 = s :=
  ⟨rfl, rfl⟩

/-- Claim C10: under the invariant head == length(elements), no operation
panics on an out-of-bounds access: top's read of numbers[head - 1] and
display's reads of numbers[i] for i < head are in bounds (no `none`), and
the Vec pop inside pop returns Some whenever head > 0, so the silent
missing-element branch is never taken. -/
theorem no_out_of_bounds (s : StackState) (hinv : s.head = s.numbers.length) :
    (top_of_the_stack s.numbers s.head).isSome ∧
    (display s.numbers s.head).isSome ∧
    (0 < s.head → ∃ v, (pop s).2 = PopOut.removed v) := by
  refine ⟨?_, ?_, ?_⟩
  · by_cases h0 : s.head = 0
    · simp [top_of_the_stack, h0]
    · have hlt : s.head - 1 < s.numbers.length := by
        have := Nat.pos_of_ne_zero h0
        omega
      simp [top_of_the_stack, h0, List.getElem?_eq_getElem hlt]
  · by_cases h0 : s.head = 0
    · simp [display, h0]
    · simp [display, h0, displayLoop_take s.numbers s.head (le_of_eq hinv)]
  · intro hpos
    obtain ⟨v, hv, _⟩ := pop_pos s hinv hpos
    exact ⟨v, by rw [hv]⟩

/-- Witness for C10: the stack [4] with head 1. -/
theorem no_out_of_bounds_witness :
    (top_of_the_stack [(4 : Int)] 1).isSome ∧
      (display [(4 : Int)] 1).isSome ∧
      ∃ v, (pop ⟨[(4 : Int)], 1⟩).2 = PopOut.removed v :=
  ⟨(no_out_of_bounds ⟨[4], 1⟩ rfl).1,
   (no_out_of_bounds ⟨[4], 1⟩ rfl).2.1,
   (no_out_of_bounds ⟨[4], 1⟩ rfl).2.2 (by decide)⟩

end BoundedStack
